import Mathlib

/-!
Verification of the iso-video camera/scene composition and export engine.

The definitions below are shallow embeddings of the TypeScript source:
times, durations, offsets and progress values are modelled as rationals,
scenes as records carrying exactly the fields the embedded functions read,
and fallible operations as `Option`/`Except` values.  Source locations are
given in each doc comment.
-/

namespace IsoVideo

/-- Per-scene camera settings (`SectionCameraSettings` in lib/types).
Only the fields read by the embedded functions are modelled. -/
structure SectionCameraSettings where
  moveOffsetX : ℚ
  moveOffsetY : ℚ
  deriving DecidableEq

/-- Motion settings (`MotionSettings` in lib/types): entry/exit animation
durations in milliseconds.  The animation kind and easing are not read by
any function embedded here. -/
structure MotionSettings where
  entryDuration : ℚ
  exitDuration : ℚ
  deriving DecidableEq

/-- A timeline scene (`Scene` in lib/types).  Fields not read by the
embedded functions (static transform, transition settings) are omitted. -/
structure Scene where
  id : String
  screenId : String
  duration : ℚ
  order : ℕ
  camera : Option SectionCameraSettings := none
  zDepth : Option ℚ := none
  motion : MotionSettings := ⟨300, 300⟩
  deriving DecidableEq

/-- Global camera settings (`GlobalCameraSettings` in lib/types). -/
structure GlobalCameraSettings where
  rotateX : ℚ := 0
  rotateY : ℚ := 0
  perspective : ℚ := 1000
  zSpacing : ℚ := 800
  deriving DecidableEq

/-- Result of the timeline resolver (`SceneData` in src/hooks/use-playback.ts).
The source returns the scene object itself; here the scene is represented by
its index in the scene list. -/
structure SceneData where
  sceneIndex : ℕ
  sceneProgress : ℚ
  sceneTime : ℚ
  sceneStartTime : ℚ
  deriving DecidableEq

/-- Total timeline duration:
`scenes.reduce((acc, scene) => acc + scene.duration, 0)`
(store selector `useTotalDuration`, src/unnamed/part_000 lines 701-704). -/
def totalDuration (scenes : List Scene) : ℚ :=
  scenes.foldl (fun acc s => acc + s.duration) 0

/-- Accumulated duration of the scenes before index `i`: the value of
`accumulatedTime` when the loop of `getSceneAtTime` reaches scene `i`. -/
def startTime (scenes : List Scene) (i : ℕ) : ℚ :=
  totalDuration (scenes.take i)

/-- The scan loop of `getSceneAtTime` (src/hooks/use-playback.ts lines 78-92):
walk the scenes accumulating durations; the first scene with
`accumulated <= time < accumulated + duration` is returned together with
`sceneProgress = (time - accumulated) / duration`. -/
def getSceneAtTimeAux (time : ℚ) : List Scene → ℚ → ℕ → Option SceneData
  | [], _, _ => none
  | s :: rest, acc, idx =>
    if time ≥ acc ∧ time < acc + s.duration then
      some ⟨idx, (time - acc) / s.duration, time - acc, acc⟩
    else
      getSceneAtTimeAux time rest (acc + s.duration) (idx + 1)

/-- `getSceneAtTime` (src/hooks/use-playback.ts lines 77-118).  After the scan
loop: if the list is non-empty and `time >= accumulatedTime` (the total
duration) the last scene is returned with progress 1; otherwise a non-empty
list falls back to the first scene with progress 0; an empty list yields
no result. -/
def getSceneAtTime (scenes : List Scene) (time : ℚ) : Option SceneData :=
  match getSceneAtTimeAux time scenes 0 0 with
  | some d => some d
  | none =>
    match scenes.getLast? with
    | none => none
    | some lastScene =>
      if time ≥ totalDuration scenes then
        some ⟨scenes.length - 1, 1, lastScene.duration,
              totalDuration scenes - lastScene.duration⟩
      else
        some ⟨0, 0, 0, 0⟩

theorem foldl_add_duration (scenes : List Scene) (c : ℚ) :
    scenes.foldl (fun acc s => acc + s.duration) c = c + totalDuration scenes := by
  induction scenes generalizing c with
  | nil => simp [totalDuration]
  | cons s rest ih =>
    simp only [totalDuration, List.foldl_cons] at *
    rw [ih (c + s.duration), ih (0 + s.duration)]
    ring

theorem totalDuration_cons (s : Scene) (rest : List Scene) :
    totalDuration (s :: rest) = s.duration + totalDuration rest := by
  show List.foldl (fun acc x => acc + x.duration) 0 (s :: rest)
      = s.duration + totalDuration rest
  rw [List.foldl_cons, foldl_add_duration, zero_add]

theorem totalDuration_nonneg (scenes : List Scene)
    (h : ∀ s ∈ scenes, 0 ≤ s.duration) : 0 ≤ totalDuration scenes := by
  induction scenes with
  | nil => simp [totalDuration]
  | cons s rest ih =>
    rw [totalDuration_cons]
    have h1 : 0 ≤ s.duration := h s (by simp)
    have h2 : 0 ≤ totalDuration rest := ih (fun x hx => h x (by simp [hx]))
    linarith

theorem totalDuration_pos (s : Scene) (rest : List Scene)
    (h : ∀ x ∈ s :: rest, 0 < x.duration) : 0 < totalDuration (s :: rest) := by
  rw [totalDuration_cons]
  have h1 : 0 < s.duration := h s (by simp)
  have h2 : 0 ≤ totalDuration rest :=
    totalDuration_nonneg rest (fun x hx => le_of_lt (h x (by simp [hx])))
  linarith

theorem startTime_zero (scenes : List Scene) : startTime scenes 0 = 0 := by
  simp [startTime, totalDuration]

theorem startTime_cons_succ (s : Scene) (rest : List Scene) (i : ℕ) :
    startTime (s :: rest) (i + 1) = s.duration + startTime rest i := by
  simp [startTime, List.take_succ_cons, totalDuration_cons]

theorem startTime_nonneg (scenes : List Scene) (i : ℕ)
    (h : ∀ s ∈ scenes, 0 ≤ s.duration) : 0 ≤ startTime scenes i :=
  totalDuration_nonneg _ (fun s hs => h s (List.take_subset i scenes hs))

theorem getSceneAtTimeAux_window (time : ℚ) (scenes : List Scene)
    (hpos : ∀ s ∈ scenes, 0 < s.duration) :
    ∀ (acc : ℚ) (idx : ℕ) (i : ℕ) (hi : i < scenes.length),
      acc + startTime scenes i ≤ time →
      time < acc + startTime scenes i + scenes[i].duration →
      getSceneAtTimeAux time scenes acc idx =
        some ⟨idx + i, (time - (acc + startTime scenes i)) / scenes[i].duration,
              time - (acc + startTime scenes i), acc + startTime scenes i⟩ := by
  induction scenes with
  | nil => intro acc idx i hi; exact absurd hi (by simp)
  | cons s rest ih =>
    intro acc idx i hi hlo hhi
    cases i with
    | zero =>
      rw [startTime_zero] at hlo hhi ⊢
      rw [List.getElem_cons_zero] at hhi ⊢
      have hcond : time ≥ acc ∧ time < acc + s.duration := by
        constructor
        · linarith
        · linarith
      simp only [getSceneAtTimeAux]
      rw [if_pos hcond]
      simp
    | succ j =>
      have hj : j < rest.length := by simpa using hi
      rw [startTime_cons_succ] at hlo hhi ⊢
      rw [List.getElem_cons_succ] at hhi ⊢
      have hrestpos : ∀ x ∈ rest, 0 < x.duration := fun x hx => hpos x (by simp [hx])
      have hst : 0 ≤ startTime rest j :=
        startTime_nonneg rest j (fun x hx => le_of_lt (hrestpos x hx))
      simp only [getSceneAtTimeAux]
      rw [if_neg (by rintro ⟨-, h2⟩; linarith)]
      have h2 := ih hrestpos (acc + s.duration) (idx + 1) j hj
        (by linarith) (by linarith)
      rw [h2]
      simp only [Option.some.injEq, SceneData.mk.injEq]
      refine ⟨by omega, by ring_nf, by ring, by ring⟩

theorem getSceneAtTimeAux_none_of_ge (time : ℚ) (scenes : List Scene)
    (hpos : ∀ s ∈ scenes, 0 ≤ s.duration) :
    ∀ (acc : ℚ) (idx : ℕ), acc + totalDuration scenes ≤ time →
      getSceneAtTimeAux time scenes acc idx = none := by
  induction scenes with
  | nil => intro acc idx _; rfl
  | cons s rest ih =>
    intro acc idx h
    rw [totalDuration_cons] at h
    have hrest : ∀ x ∈ rest, 0 ≤ x.duration := fun x hx => hpos x (by simp [hx])
    have htd : 0 ≤ totalDuration rest := totalDuration_nonneg rest hrest
    simp only [getSceneAtTimeAux]
    rw [if_neg (by rintro ⟨-, h2⟩; linarith)]
    exact ih hrest (acc + s.duration) (idx + 1) (by linarith)

theorem getSceneAtTimeAux_none_of_lt (time : ℚ) (scenes : List Scene)
    (hpos : ∀ s ∈ scenes, 0 ≤ s.duration) :
    ∀ (acc : ℚ) (idx : ℕ), time < acc →
      getSceneAtTimeAux time scenes acc idx = none := by
  induction scenes with
  | nil => intro acc idx _; rfl
  | cons s rest ih =>
    intro acc idx h
    have hd : 0 ≤ s.duration := hpos s (by simp)
    have hrest : ∀ x ∈ rest, 0 ≤ x.duration := fun x hx => hpos x (by simp [hx])
    simp only [getSceneAtTimeAux]
    rw [if_neg (by rintro ⟨h1, -⟩; linarith)]
    exact ih hrest (acc + s.duration) (idx + 1) (by linarith)

theorem exists_containing_window (scenes : List Scene)
    (hpos : ∀ s ∈ scenes, 0 < s.duration) (t : ℚ) (h0 : 0 ≤ t)
    (ht : t < totalDuration scenes) :
    ∃ i, ∃ hi : i < scenes.length,
      startTime scenes i ≤ t ∧ t < startTime scenes i + scenes[i].duration := by
  induction scenes generalizing t with
  | nil =>
    exfalso
    simp [totalDuration] at ht
    linarith
  | cons s rest ih =>
    by_cases hcase : t < s.duration
    · exact ⟨0, by simp, by rw [startTime_zero]; exact h0,
        by rw [startTime_zero, List.getElem_cons_zero]; linarith⟩
    · push_neg at hcase
      have hrestpos : ∀ x ∈ rest, 0 < x.duration := fun x hx => hpos x (by simp [hx])
      have ht2 : t - s.duration < totalDuration rest := by
        rw [totalDuration_cons] at ht
        linarith
      obtain ⟨i, hi, hlo, hhi⟩ := ih hrestpos (t - s.duration) (by linarith) ht2
      refine ⟨i + 1, by simpa using hi, ?_, ?_⟩
      · rw [startTime_cons_succ]
        linarith
      · rw [startTime_cons_succ, List.getElem_cons_succ]
        linarith

theorem getSceneAtTime_window (scenes : List Scene) (time : ℚ)
    (hpos : ∀ s ∈ scenes, 0 < s.duration) (i : ℕ) (hi : i < scenes.length)
    (hlo : startTime scenes i ≤ time)
    (hhi : time < startTime scenes i + scenes[i].duration) :
    getSceneAtTime scenes time =
      some ⟨i, (time - startTime scenes i) / scenes[i].duration,
            time - startTime scenes i, startTime scenes i⟩ := by
  have haux := getSceneAtTimeAux_window time scenes hpos 0 0 i hi
    (by rw [zero_add]; exact hlo) (by rw [zero_add]; exact hhi)
  simp only [getSceneAtTime, haux, zero_add]

theorem getSceneAtTime_last (scenes : List Scene) (time : ℚ)
    (hpos : ∀ s ∈ scenes, 0 < s.duration) (hne : scenes ≠ [])
    (hge : totalDuration scenes ≤ time) :
    ∃ lastScene, scenes.getLast? = some lastScene ∧
      getSceneAtTime scenes time =
        some ⟨scenes.length - 1, 1, lastScene.duration,
              totalDuration scenes - lastScene.duration⟩ := by
  have haux := getSceneAtTimeAux_none_of_ge time scenes
    (fun s hs => le_of_lt (hpos s hs)) 0 0 (by rw [zero_add]; exact hge)
  obtain ⟨lastScene, hlast⟩ :=
    Option.isSome_iff_exists.mp (List.getLast?_isSome.mpr hne)
  refine ⟨lastScene, hlast, ?_⟩
  simp only [getSceneAtTime, haux, hlast]
  rw [if_pos hge]

theorem getSceneAtTime_neg (scenes : List Scene) (time : ℚ)
    (hpos : ∀ s ∈ scenes, 0 < s.duration) (hne : scenes ≠ [])
    (hlt : time < 0) :
    getSceneAtTime scenes time = some ⟨0, 0, 0, 0⟩ := by
  have haux := getSceneAtTimeAux_none_of_lt time scenes
    (fun s hs => le_of_lt (hpos s hs)) 0 0 hlt
  obtain ⟨lastScene, hlast⟩ :=
    Option.isSome_iff_exists.mp (List.getLast?_isSome.mpr hne)
  obtain ⟨s, rest, rfl⟩ := List.exists_cons_of_ne_nil hne
  have htot : 0 < totalDuration (s :: rest) := totalDuration_pos s rest hpos
  simp only [getSceneAtTime, haux, hlast]
  rw [if_neg (by intro h; simp only [ge_iff_le] at h; linarith)]

/-- C1: the timeline resolver `getSceneAtTime` returns the scene whose
accumulated-duration window `[startTime, startTime + duration)` contains the
queried time, with `sceneProgress = (time - startTime) / duration`; time at or
below 0 resolves to the first scene with progress 0; time at or beyond the
total duration resolves (clamped) to the last scene with progress 1; an empty
scene list yields no result; and for every time in `[0, totalDuration]` the
returned index is a valid scene index with progress in `[0, 1]`. -/
theorem C1_timeline_resolver (scenes : List Scene) (time : ℚ)
    (hpos : ∀ s ∈ scenes, 0 < s.duration) :
    (getSceneAtTime [] time = none)
    ∧ (∀ (i : ℕ) (hi : i < scenes.length),
        startTime scenes i ≤ time →
        time < startTime scenes i + scenes[i].duration →
        getSceneAtTime scenes time =
          some ⟨i, (time - startTime scenes i) / scenes[i].duration,
                time - startTime scenes i, startTime scenes i⟩)
    ∧ (scenes ≠ [] → time ≤ 0 →
        ∃ d, getSceneAtTime scenes time = some d ∧
          d.sceneIndex = 0 ∧ d.sceneProgress = 0)
    ∧ (scenes ≠ [] → totalDuration scenes ≤ time →
        ∃ d, getSceneAtTime scenes time = some d ∧
          d.sceneIndex = scenes.length - 1 ∧ d.sceneProgress = 1)
    ∧ (scenes ≠ [] → 0 ≤ time → time ≤ totalDuration scenes →
        ∃ d, getSceneAtTime scenes time = some d ∧
          d.sceneIndex < scenes.length ∧
          0 ≤ d.sceneProgress ∧ d.sceneProgress ≤ 1) := by
  refine ⟨rfl, fun i hi hlo hhi => getSceneAtTime_window scenes time hpos i hi hlo hhi,
    ?_, ?_, ?_⟩
  · intro hne hle
    rcases lt_or_eq_of_le hle with hlt | heq
    · exact ⟨⟨0, 0, 0, 0⟩, getSceneAtTime_neg scenes time hpos hne hlt, rfl, rfl⟩
    · subst heq
      obtain ⟨s, rest, rfl⟩ := List.exists_cons_of_ne_nil hne
      have h0 : (0 : ℕ) < (s :: rest).length := by simp
      have hd : 0 < (s :: rest)[0].duration := hpos _ (List.getElem_mem h0)
      refine ⟨_, getSceneAtTime_window (s :: rest) 0 hpos 0 h0
        (by rw [startTime_zero]) (by rw [startTime_zero]; linarith), rfl, ?_⟩
      simp [startTime_zero]
  · intro hne hge
    obtain ⟨lastScene, -, hval⟩ := getSceneAtTime_last scenes time hpos hne hge
    exact ⟨_, hval, rfl, rfl⟩
  · intro hne h0 hle
    rcases lt_or_eq_of_le hle with hlt | heq
    · obtain ⟨i, hi, hlo, hhi⟩ := exists_containing_window scenes hpos time h0 hlt
      have hd : 0 < scenes[i].duration := hpos _ (List.getElem_mem hi)
      refine ⟨_, getSceneAtTime_window scenes time hpos i hi hlo hhi, hi, ?_, ?_⟩
      · exact div_nonneg (by linarith) (le_of_lt hd)
      · exact le_of_lt ((div_lt_one hd).mpr (by linarith))
    · obtain ⟨lastScene, -, hval⟩ :=
        getSceneAtTime_last scenes time hpos hne (le_of_eq heq.symm)
      refine ⟨_, hval, ?_, by norm_num, le_refl 1⟩
      have hlen : 0 < scenes.length := List.length_pos.mpr hne
      show scenes.length - 1 < scenes.length
      omega

/-- Demonstration scene list for the C1 witness: durations 2000 and 3000 ms. -/
def demoScenesC1 : List Scene :=
  [{ id := "a", screenId := "A", duration := 2000, order := 0 },
   { id := "b", screenId := "B", duration := 3000, order := 1 }]

/-- Witness for C1: on two scenes of durations 2000 and 3000 ms, time 2500
falls in the second scene's window with progress (2500 - 2000) / 3000 = 1/6. -/
theorem C1_timeline_resolver_witness :
    getSceneAtTime demoScenesC1 2500 = some ⟨1, 1/6, 500, 2000⟩ := by
  have h := (C1_timeline_resolver demoScenesC1 2500
    (by intro s hs; fin_cases hs <;> norm_num)).2.1 1 (by norm_num [demoScenesC1])
  have hst : startTime demoScenesC1 1 = 2000 := by
    norm_num [startTime, demoScenesC1, totalDuration]
  rw [hst] at h
  have hd : demoScenesC1[1].duration = 3000 := by norm_num [demoScenesC1]
  rw [hd] at h
  have := h (by norm_num) (by norm_num)
  rw [this]
  norm_num

/-- Easing `easeOutCubic(t) = 1 - (1 - t)^3`
(src/components/preview/camera-scene-renderer.tsx lines 22-24). -/
def easeOutCubic (t : ℚ) : ℚ := 1 - (1 - t) ^ 3

/-- Easing `easeInOutCubic(t) = t < 0.5 ? 4t^3 : 1 - (-2t + 2)^3 / 2`
(src/components/preview/camera-scene-renderer.tsx lines 26-30). -/
def easeInOutCubic (t : ℚ) : ℚ :=
  if t < 1/2 then 4 * t * t * t else 1 - (-2 * t + 2) ^ 3 / 2

/-- Transition phase of the camera within a scene. -/
inductive TransitionPhase where
  | enter
  | hold
  | exit
  deriving DecidableEq

/-- Camera state (src/components/preview/camera-scene-renderer.tsx
lines 46-51). -/
structure CameraState where
  targetZ : ℚ
  targetX : ℚ
  targetY : ℚ
  transitionPhase : TransitionPhase
  deriving DecidableEq

/-- Transition-phase classification of `getCameraState`
(src/components/preview/camera-scene-renderer.tsx lines 67-75):
progress < 0.2 is entering, progress > 0.8 is exiting, otherwise holding.
Decimal constants 0.2 and 0.8 are written 1/5 and 4/5. -/
def transitionPhaseOf (progress : ℚ) : TransitionPhase :=
  if progress < 1/5 then TransitionPhase.enter
  else if progress > 4/5 then TransitionPhase.exit
  else TransitionPhase.hold

/-- Offset computation of `getCameraState`
(src/components/preview/camera-scene-renderer.tsx lines 77-101): zero when
the scene carries no camera settings, otherwise dependent on the transition
phase; the exit phase blends toward `nextCamera?.moveOffset ?? 0`. -/
def cameraOffsets (scenes : List Scene) (currentIndex : ℕ) (progress : ℚ)
    (camera : Option SectionCameraSettings) : ℚ × ℚ :=
  match camera with
  | none => (0, 0)
  | some camera =>
    if transitionPhaseOf progress = TransitionPhase.enter then
      let enterProgress := easeOutCubic (progress / (1/5))
      (camera.moveOffsetX * enterProgress, camera.moveOffsetY * enterProgress)
    else if transitionPhaseOf progress = TransitionPhase.exit then
      let exitProgress := easeInOutCubic ((progress - 4/5) / (1/5))
      let nextCamera := (scenes[currentIndex + 1]?).bind Scene.camera
      let nx := (nextCamera.map SectionCameraSettings.moveOffsetX).getD 0
      let ny := (nextCamera.map SectionCameraSettings.moveOffsetY).getD 0
      (camera.moveOffsetX + (nx - camera.moveOffsetX) * exitProgress,
       camera.moveOffsetY + (ny - camera.moveOffsetY) * exitProgress)
    else
      (camera.moveOffsetX, camera.moveOffsetY)

/-- `getCameraState` (src/components/preview/camera-scene-renderer.tsx lines
53-109).  The source reads `scenes[currentIndex]`; an out-of-range index
would crash at the following property access and is modelled as `none`.
(The source also returns the neutral state for `currentIndex < 0`, which
cannot occur with a natural-number index.) -/
def getCameraState (scenes : List Scene) (currentIndex : ℕ) (progress : ℚ)
    (globalCamera : GlobalCameraSettings) : Option CameraState :=
  if scenes.length = 0 then
    some ⟨0, 0, 0, TransitionPhase.hold⟩
  else
    match scenes[currentIndex]? with
    | none => none
    | some currentScene =>
      let currentZ :=
        currentScene.zDepth.getD (-(currentIndex : ℚ) * globalCamera.zSpacing)
      let offsets := cameraOffsets scenes currentIndex progress currentScene.camera
      some ⟨currentZ, offsets.1, offsets.2, transitionPhaseOf progress⟩

/-- The X offset the exit phase blends toward: the next scene's camera offset,
or 0 when there is no next scene or it carries no camera settings
(`nextCamera?.moveOffsetX ?? 0` in the source). -/
def nextOffsetX (scenes : List Scene) (i : ℕ) : ℚ :=
  (((scenes[i + 1]?).bind Scene.camera).map SectionCameraSettings.moveOffsetX).getD 0

/-- Y analogue of `nextOffsetX`. -/
def nextOffsetY (scenes : List Scene) (i : ℕ) : ℚ :=
  (((scenes[i + 1]?).bind Scene.camera).map SectionCameraSettings.moveOffsetY).getD 0

theorem transitionPhaseOf_enter {p : ℚ} (h : p < 1/5) :
    transitionPhaseOf p = TransitionPhase.enter := by
  unfold transitionPhaseOf
  rw [if_pos h]

theorem transitionPhaseOf_exit {p : ℚ} (h : 4/5 < p) :
    transitionPhaseOf p = TransitionPhase.exit := by
  have h1 : ¬ p < 1/5 := by linarith
  unfold transitionPhaseOf
  rw [if_neg h1, if_pos h]

theorem transitionPhaseOf_hold {p : ℚ} (h1 : 1/5 ≤ p) (h2 : p ≤ 4/5) :
    transitionPhaseOf p = TransitionPhase.hold := by
  unfold transitionPhaseOf
  rw [if_neg (not_lt.mpr h1), if_neg (not_lt.mpr h2)]

theorem cameraOffsets_enter (scenes : List Scene) (i : ℕ) {p : ℚ}
    (cam : SectionCameraSettings) (h : p < 1/5) :
    cameraOffsets scenes i p (some cam) =
      (cam.moveOffsetX * easeOutCubic (p / (1/5)),
       cam.moveOffsetY * easeOutCubic (p / (1/5))) := by
  simp [cameraOffsets, transitionPhaseOf_enter h]

theorem cameraOffsets_exit (scenes : List Scene) (i : ℕ) {p : ℚ}
    (cam : SectionCameraSettings) (h : 4/5 < p) :
    cameraOffsets scenes i p (some cam) =
      (cam.moveOffsetX + (nextOffsetX scenes i - cam.moveOffsetX) *
         easeInOutCubic ((p - 4/5) / (1/5)),
       cam.moveOffsetY + (nextOffsetY scenes i - cam.moveOffsetY) *
         easeInOutCubic ((p - 4/5) / (1/5))) := by
  simp [cameraOffsets, transitionPhaseOf_exit h, nextOffsetX, nextOffsetY]

theorem cameraOffsets_hold (scenes : List Scene) (i : ℕ) {p : ℚ}
    (cam : SectionCameraSettings) (h1 : 1/5 ≤ p) (h2 : p ≤ 4/5) :
    cameraOffsets scenes i p (some cam) = (cam.moveOffsetX, cam.moveOffsetY) := by
  simp [cameraOffsets, transitionPhaseOf_hold h1 h2]

theorem getCameraState_eq (scenes : List Scene) (i : ℕ) (p : ℚ)
    (g : GlobalCameraSettings) (hi : i < scenes.length) :
    getCameraState scenes i p g =
      some ⟨(scenes[i].zDepth).getD (-(i : ℚ) * g.zSpacing),
            (cameraOffsets scenes i p scenes[i].camera).1,
            (cameraOffsets scenes i p scenes[i].camera).2,
            transitionPhaseOf p⟩ := by
  have hlen : ¬ scenes.length = 0 := by omega
  have hget : scenes[i]? = some scenes[i] := List.getElem?_eq_getElem hi
  simp [getCameraState, hlen, hget]

/-- Single-scene list whose camera offset is (100, 40), used to refute C2. -/
def cexSceneC2 : Scene :=
  { id := "c", screenId := "C", duration := 3000, order := 0,
    camera := some ⟨100, 40⟩ }

/-- Counterexample to C2: for the last scene (no next scene) at progress 0.9
the code blends the offset toward 0 rather than holding it, yielding
targetX = 100 + (0 - 100) * easeInOutCubic(0.5) = 50, not the claimed 100. -/
theorem C2_counterexample :
    (getCameraState [cexSceneC2] 0 (9/10)
        { rotateX := 0, rotateY := 0, perspective := 1000, zSpacing := 800 }).map
      CameraState.targetX = some 50 ∧ (50 : ℚ) ≠ 100 := by
  have h := getCameraState_eq [cexSceneC2] 0 (9/10)
    { rotateX := 0, rotateY := 0, perspective := 1000, zSpacing := 800 } (by decide)
  have hoff := cameraOffsets_exit [cexSceneC2] 0 (p := 9/10) ⟨100, 40⟩
    (by norm_num)
  constructor
  · rw [h]
    show some ((cameraOffsets [cexSceneC2] 0 (9/10) cexSceneC2.camera).1) = some 50
    have hc : cexSceneC2.camera = some ⟨100, 40⟩ := rfl
    rw [hc, hoff]
    norm_num [nextOffsetX, easeInOutCubic]
  · norm_num

/-- C2 (amended): for every valid scene index whose scene carries camera
settings, `getCameraState` classifies progress < 0.2 as entering (offset
scaled by easeOutCubic(progress/0.2)), progress in [0.2, 0.8] as holding
(offset unchanged, including exactly 0.2 and 0.8), and progress > 0.8 as
exiting, where the offset is blended toward the next scene's camera offset
weighted by easeInOutCubic((progress-0.8)/0.2) — with the blend target taken
as 0 (not the held current offset) when no next scene exists or the next
scene has no camera settings. -/
theorem C2_camera_state (scenes : List Scene) (i : ℕ) (progress : ℚ)
    (g : GlobalCameraSettings) (cam : SectionCameraSettings)
    (hi : i < scenes.length) (hcam : scenes[i].camera = some cam) :
    ∃ st, getCameraState scenes i progress g = some st ∧
      (progress < 1/5 →
        st.transitionPhase = TransitionPhase.enter ∧
        st.targetX = cam.moveOffsetX * easeOutCubic (progress / (1/5)) ∧
        st.targetY = cam.moveOffsetY * easeOutCubic (progress / (1/5))) ∧
      (1/5 ≤ progress → progress ≤ 4/5 →
        st.transitionPhase = TransitionPhase.hold ∧
        st.targetX = cam.moveOffsetX ∧ st.targetY = cam.moveOffsetY) ∧
      (4/5 < progress →
        st.transitionPhase = TransitionPhase.exit ∧
        st.targetX = cam.moveOffsetX +
          (nextOffsetX scenes i - cam.moveOffsetX) *
            easeInOutCubic ((progress - 4/5) / (1/5)) ∧
        st.targetY = cam.moveOffsetY +
          (nextOffsetY scenes i - cam.moveOffsetY) *
            easeInOutCubic ((progress - 4/5) / (1/5))) := by
  refine ⟨_, getCameraState_eq scenes i progress g hi, ?_, ?_, ?_⟩
  · intro h
    rw [hcam, cameraOffsets_enter scenes i cam h]
    exact ⟨transitionPhaseOf_enter h, rfl, rfl⟩
  · intro h1 h2
    rw [hcam, cameraOffsets_hold scenes i cam h1 h2]
    exact ⟨transitionPhaseOf_hold h1 h2, rfl, rfl⟩
  · intro h
    rw [hcam, cameraOffsets_exit scenes i cam h]
    exact ⟨transitionPhaseOf_exit h, rfl, rfl⟩

/-- Scene list used by the C2 witness: two scenes with camera offsets
(120, 60) and (30, 10). -/
def demoScenesC2 : List Scene :=
  [{ id := "p", screenId := "P", duration := 2000, order := 0,
     camera := some ⟨120, 60⟩ },
   { id := "q", screenId := "Q", duration := 2000, order := 1,
     camera := some ⟨30, 10⟩ }]

/-- Witness for C2 (amended): at progress 1/2 the first demo scene is in the
holding phase and its offset is returned unchanged. -/
theorem C2_camera_state_witness :
    ∃ st, getCameraState demoScenesC2 0 (1/2)
        { rotateX := 0, rotateY := 0, perspective := 1000, zSpacing := 800 } = some st ∧
      st.transitionPhase = TransitionPhase.hold ∧ st.targetX = 120 := by
  obtain ⟨st, hst, -, hhold, -⟩ := C2_camera_state demoScenesC2 0 (1/2)
    { rotateX := 0, rotateY := 0, perspective := 1000, zSpacing := 800 }
    ⟨120, 60⟩ (by decide) rfl
  obtain ⟨hph, hx, -⟩ := hhold (by norm_num) (by norm_num)
  exact ⟨st, hst, hph, by rw [hx]⟩

/-- `calculateBlur` (src/components/preview/camera-scene-renderer.tsx lines
33-43): depth-of-field blur from the distance to the focal plane.  Returns 0
when DOF is disabled or zSpacing is 0 (division guard); otherwise
`min(|distance| / zSpacing * aperture * maxBlur, maxBlur)`. -/
def calculateBlur (distanceFromFocus zSpacing aperture maxBlur : ℚ)
    (enabled : Bool) : ℚ :=
  if enabled = false ∨ zSpacing = 0 then 0
  else
    let normalizedDistance := |distanceFromFocus| / zSpacing
    min (normalizedDistance * aperture * maxBlur) maxBlur

/-- C3: within the documented ranges (zSpacing ≥ 0, aperture ∈ [1, 10],
maxBlur ∈ [0, 20]) the DOF blur equals
min(|distance|/zSpacing × aperture × maxBlur, maxBlur) when enabled with
nonzero zSpacing, equals 0 when disabled or when zSpacing = 0, and always
satisfies 0 ≤ blur ≤ maxBlur. -/
theorem C3_blur (distanceFromFocus zSpacing aperture maxBlur : ℚ) (enabled : Bool)
    (hz : 0 ≤ zSpacing) (ha1 : 1 ≤ aperture) (ha2 : aperture ≤ 10)
    (hm1 : 0 ≤ maxBlur) (hm2 : maxBlur ≤ 20) :
    (enabled = true → zSpacing ≠ 0 →
      calculateBlur distanceFromFocus zSpacing aperture maxBlur enabled =
        min (|distanceFromFocus| / zSpacing * aperture * maxBlur) maxBlur)
    ∧ (enabled = false →
      calculateBlur distanceFromFocus zSpacing aperture maxBlur enabled = 0)
    ∧ (zSpacing = 0 →
      calculateBlur distanceFromFocus zSpacing aperture maxBlur enabled = 0)
    ∧ 0 ≤ calculateBlur distanceFromFocus zSpacing aperture maxBlur enabled
    ∧ calculateBlur distanceFromFocus zSpacing aperture maxBlur enabled ≤ maxBlur := by
  unfold calculateBlur
  by_cases hcase : enabled = false ∨ zSpacing = 0
  · rw [if_pos hcase]
    refine ⟨?_, fun _ => rfl, fun _ => rfl, le_refl 0, hm1⟩
    intro he hz0
    rcases hcase with h | h
    · rw [he] at h
      exact absurd h (by simp)
    · exact absurd h hz0
  · rw [if_neg hcase]
    push_neg at hcase
    obtain ⟨he, hz0⟩ := hcase
    have ha0 : 0 ≤ aperture := by linarith
    have hdivnn : 0 ≤ |distanceFromFocus| / zSpacing :=
      div_nonneg (abs_nonneg _) hz
    have hprod : 0 ≤ |distanceFromFocus| / zSpacing * aperture * maxBlur :=
      mul_nonneg (mul_nonneg hdivnn ha0) hm1
    exact ⟨fun _ _ => rfl, fun hf => absurd hf he, fun h => absurd h hz0,
      le_min hprod hm1, min_le_right _ _⟩

/-- Witness for C3: the spec's worked example — aperture 2, maxBlur 8,
zSpacing 700, distance 700, DOF enabled — yields blur min(1 × 2 × 8, 8) = 8. -/
theorem C3_blur_witness :
    calculateBlur 700 700 2 8 true = 8 := by
  have h := (C3_blur 700 700 2 8 true (by norm_num) (by norm_num) (by norm_num)
    (by norm_num) (by norm_num)).1 rfl (by norm_num)
  rw [h]
  norm_num

/-- Frame classification of the WebM/MP4 render loop
(src/lib/video-export.ts lines 207 and 229-231): a sampled frame at
scene-local time `sceneTime` is drawn as a transition blend exactly when it
is in the entry window (`sceneTime < transitionDuration` with
`transitionDuration = 300` and `currentSceneIndex > 0`) or in the exit window
(`sceneTime > scene.duration - transitionDuration` and
`currentSceneIndex < scenes.length - 1`). -/
def webmFrameIsBlend (sceneTime sceneDuration : ℚ)
    (sceneIndex sceneCount : ℕ) : Bool :=
  let transitionDuration : ℚ := 300
  let isInEntryTransition :=
    decide (sceneTime < transitionDuration) && decide (0 < sceneIndex)
  let isInExitTransition :=
    decide (sceneTime > sceneDuration - transitionDuration) &&
      decide (sceneIndex < sceneCount - 1)
  isInEntryTransition || isInExitTransition

/-- Frame classification of the GIF render loop (src/lib/video-export.ts
lines 422 and 442-444), written with its own local `transitionDuration = 300`
constant. -/
def gifFrameIsBlend (sceneTime sceneDuration : ℚ)
    (sceneIndex sceneCount : ℕ) : Bool :=
  let transitionDuration : ℚ := 300
  let isInEntryTransition :=
    decide (sceneTime < transitionDuration) && decide (0 < sceneIndex)
  let isInExitTransition :=
    decide (sceneTime > sceneDuration - transitionDuration) &&
      decide (sceneIndex < sceneCount - 1)
  isInEntryTransition || isInExitTransition

/-- Transition duration used by the interactive preview when a scene change
is detected (src/hooks/use-playback.ts lines 152-165):
`Math.max(current.scene.motion.entryDuration, prevScene.motion.exitDuration)`. -/
def previewTransitionDuration (current previous : Scene) : ℚ :=
  max current.motion.entryDuration previous.motion.exitDuration

/-- Scenes used to refute C4: motion entry duration 600 ms, exit 400 ms. -/
def cexSceneC4a : Scene :=
  { id := "u", screenId := "U", duration := 2000, order := 0, motion := ⟨600, 400⟩ }

/-- Second scene of the C4 counterexample pair. -/
def cexSceneC4b : Scene :=
  { id := "v", screenId := "V", duration := 2000, order := 1, motion := ⟨600, 400⟩ }

/-- Counterexample to C4: the interactive preview's transition duration for a
scene pair with motion durations 600/400 ms is max(600, 400) = 600 ms, not
the export pipeline's fixed 300 ms window. -/
theorem C4_counterexample :
    previewTransitionDuration cexSceneC4b cexSceneC4a = 600 ∧ (600 : ℚ) ≠ 300 := by
  constructor
  · show max (600 : ℚ) 400 = 600
    norm_num
  · norm_num

/-- C4 (amended): a sampled export frame at scene-local time t is rendered as
a transition blend exactly when t < 300 ms and the scene is not the first, or
t > sceneDuration - 300 ms and the scene is not the last, and this 300 ms
window is identical across the WebM/MP4 and GIF export paths; the interactive
preview, however, uses max(entering scene's motion.entryDuration, previous
scene's motion.exitDuration) as its transition duration, which need not
equal 300 ms. -/
theorem C4_transition_window (sceneTime sceneDuration : ℚ)
    (sceneIndex sceneCount : ℕ) (current previous : Scene) :
    (webmFrameIsBlend sceneTime sceneDuration sceneIndex sceneCount = true ↔
      ((sceneTime < 300 ∧ 0 < sceneIndex) ∨
       (sceneDuration - 300 < sceneTime ∧ sceneIndex < sceneCount - 1)))
    ∧ gifFrameIsBlend sceneTime sceneDuration sceneIndex sceneCount =
        webmFrameIsBlend sceneTime sceneDuration sceneIndex sceneCount
    ∧ previewTransitionDuration current previous =
        max current.motion.entryDuration previous.motion.exitDuration := by
  refine ⟨?_, rfl, rfl⟩
  simp [webmFrameIsBlend]

/-- Renumbering `(s, i) => ({ ...s, order: i })` applied by `removeScene` and
`reorderScenes` (src/unnamed/part_000 lines 219-244). -/
def renumberScenes : ℕ → List Scene → List Scene
  | _, [] => []
  | i, s :: rest => { s with order := i } :: renumberScenes (i + 1) rest

/-- Scene-list update of the store action `removeScene`
(src/unnamed/part_000 lines 219-235): filter the scene out, then renumber
`order` densely from 0. -/
def removeScene (scenes : List Scene) (sceneId : String) : List Scene :=
  renumberScenes 0 (scenes.filter (fun s => s.id != sceneId))

/-- Scene-list update of the store action `reorderScenes`
(src/unnamed/part_000 lines 237-244): the given list with `order`
renumbered densely from 0. -/
def reorderScenes (scenes : List Scene) : List Scene :=
  renumberScenes 0 scenes

/-- Scene-list update of the store action `removeScreen`
(src/unnamed/part_000 lines 176-184): scenes referencing the removed screen
are filtered out; the remaining scenes' `order` fields are NOT renumbered. -/
def removeScreenScenes (scenes : List Scene) (screenId : String) : List Scene :=
  scenes.filter (fun s => s.screenId != screenId)

/-- The spec invariant on scene orders: the `order` fields form the
contiguous permutation `[0, sceneCount)` matching list positions. -/
def ordersContiguous (scenes : List Scene) : Prop :=
  scenes.map Scene.order = List.range scenes.length

instance (scenes : List Scene) : Decidable (ordersContiguous scenes) :=
  inferInstanceAs (Decidable (scenes.map Scene.order = List.range scenes.length))

/-- Two-scene store state used to exhibit the `removeScreen` order bug. -/
def demoScenesC8 : List Scene :=
  [{ id := "s0", screenId := "A", duration := 1000, order := 0 },
   { id := "s1", screenId := "B", duration := 1000, order := 1 }]

/-- C8 (code bug): removing screen "A" deletes the scene that references it
but leaves the surviving scene's `order` at 1, so the orders are no longer
the contiguous permutation [0, 1) — while `removeScene` and `reorderScenes`
on the same state do renormalize the orders. -/
theorem C8_removeScreen_order_bug :
    (removeScreenScenes demoScenesC8 "A").map Scene.order = [1]
    ∧ ¬ ordersContiguous (removeScreenScenes demoScenesC8 "A")
    ∧ ordersContiguous (removeScene demoScenesC8 "s0")
    ∧ ordersContiguous (reorderScenes demoScenesC8) := by
  refine ⟨by decide, by decide, by decide, by decide⟩

/-- Input scene of the export surface (`SceneExportData` in
src/lib/video-export.ts lines 22-32); the 3D transform is not read by the
control flow modelled here. -/
structure SceneExportData where
  imageUrl : String
  duration : ℚ
  deriving DecidableEq

/-- Export options (`ExportOptions`, src/lib/video-export.ts lines 13-20).
`format` is `none` when absent; `onProgress` is modelled separately by the
progress traces below. -/
structure ExportOptions where
  width : ℚ
  height : ℚ
  fps : ℚ
  quality : String
  format : Option String := none
  deriving DecidableEq

/-- Host environment facts the export control flow depends on: whether each
image URL decodes, whether the recorder supports WebM/VP9, and whether the
WebM-to-MP4 transcode succeeds. -/
structure ExportEnv where
  decode : String → Bool
  vp9Supported : Bool
  transcodeOk : Bool

/-- Error outcomes of the export pipeline (src/lib/video-export.ts): the
image-load failure (line 57), missing VP9 support (line 181), the rebranded
MP4 failure (lines 376-381) and the empty-input rejection (lines 487-489). -/
inductive ExportError where
  | imageLoad (src : String)
  | webmUnsupported
  | mp4Failed
  | emptyInput
  deriving DecidableEq

/-- An encoded output blob, identified by its MIME type. -/
structure Blob where
  mime : String
  deriving DecidableEq

/-- Observable outcome of one export call: how many image loads were
attempted, how many frames were drawn into the encoder, and the final result
(a blob on success, an error otherwise — a rejected promise never delivers a
blob). -/
structure ExportOutcome where
  loadsAttempted : ℕ
  framesEncoded : ℕ
  result : Except ExportError Blob

/-- The sequential image-loading loop (src/lib/video-export.ts lines 196-202
and 411-417): `await loadImage(scenes[i].imageUrl)` in order; the first
failing load rejects the whole export.  Returns the number of loads
attempted together with the first failing URL, if any. -/
def loadImagesAux (decode : String → Bool) :
    List SceneExportData → ℕ × Option String
  | [] => (0, none)
  | s :: rest =>
    if decode s.imageUrl then
      let r := loadImagesAux decode rest
      (r.1 + 1, r.2)
    else
      (1, some s.imageUrl)

/-- Total duration of the export scenes:
`scenes.reduce((acc, s) => acc + s.duration, 0)` (lines 204 and 419). -/
def exportTotalDuration (scenes : List SceneExportData) : ℚ :=
  scenes.foldl (fun acc s => acc + s.duration) 0

/-- `totalFrames = Math.ceil(totalDuration / (1000 / fps))` of the WebM
render loop (lines 205-206). -/
def webmTotalFrames (scenes : List SceneExportData) (fps : ℚ) : ℤ :=
  ⌈exportTotalDuration scenes / (1000 / fps)⌉

/-- Control-flow model of `renderToWebM` (src/lib/video-export.ts lines
165-266): the VP9 capability check precedes image loading (line 180); all
images load before any frame is drawn; on success every sampled frame is
encoded and the recorder delivers a `video/webm` blob. -/
def renderToWebM (env : ExportEnv) (scenes : List SceneExportData)
    (options : ExportOptions) : ExportOutcome :=
  if env.vp9Supported = false then
    ⟨0, 0, Except.error ExportError.webmUnsupported⟩
  else
    match loadImagesAux env.decode scenes with
    | (k, some url) => ⟨k, 0, Except.error (ExportError.imageLoad url)⟩
    | (k, none) =>
      ⟨k, (webmTotalFrames scenes options.fps).toNat, Except.ok ⟨"video/webm"⟩⟩

/-- `exportAsWebM` (lines 352-359): `renderToWebM` followed by the final
100% progress call; the outcome is that of `renderToWebM`. -/
def exportAsWebM (env : ExportEnv) (scenes : List SceneExportData)
    (options : ExportOptions) : ExportOutcome :=
  renderToWebM env scenes options

/-- Control-flow model of `exportAsMP4` (lines 364-382): render to WebM,
then transcode; ANY error thrown inside — including an image-load failure
raised by `renderToWebM` — is caught and rethrown as the generic
"MP4 export failed. Please try WebM format instead." error. -/
def exportAsMP4 (env : ExportEnv) (scenes : List SceneExportData)
    (options : ExportOptions) : ExportOutcome :=
  match renderToWebM env scenes options with
  | ⟨k, f, Except.error _⟩ => ⟨k, f, Except.error ExportError.mp4Failed⟩
  | ⟨k, f, Except.ok _⟩ =>
    if env.transcodeOk then ⟨k, f, Except.ok ⟨"video/mp4"⟩⟩
    else ⟨k, f, Except.error ExportError.mp4Failed⟩

/-- `gifWidth = Math.min(width, 800)` (src/lib/video-export.ts line 393). -/
def gifWidth (width : ℚ) : ℚ := min width 800

/-- `gifHeight = Math.round(gifWidth * (height / width))` (line 394);
`Math.round` and Mathlib's `round` both map x to ⌊x + 1/2⌋. -/
def gifHeight (width height : ℚ) : ℤ := round (gifWidth width * (height / width))

/-- `gifFps = Math.min(fps, 15)` (line 395). -/
def gifFps (fps : ℚ) : ℚ := min fps 15

/-- GIF `frameDuration = 1000 / gifFps` (line 420). -/
def gifFrameDuration (fps : ℚ) : ℚ := 1000 / gifFps fps

/-- GIF `totalFrames = Math.ceil(totalDuration / frameDuration)` (line 421). -/
def gifTotalFrames (scenes : List SceneExportData) (fps : ℚ) : ℤ :=
  ⌈exportTotalDuration scenes / gifFrameDuration fps⌉

/-- Control-flow model of `exportAsGIF` (lines 387-478): all images load
before encoding; success yields an `image/gif` blob. -/
def exportAsGIF (env : ExportEnv) (scenes : List SceneExportData)
    (options : ExportOptions) : ExportOutcome :=
  match loadImagesAux env.decode scenes with
  | (k, some url) => ⟨k, 0, Except.error (ExportError.imageLoad url)⟩
  | (k, none) =>
    ⟨k, (gifTotalFrames scenes options.fps).toNat, Except.ok ⟨"image/gif"⟩⟩

/-- The frame-time cursor of the GIF render loop (lines 424-428 and 462):
`currentTime` starts at 0 and advances by `frameDuration` after each frame. -/
def frameTimesAux (step : ℚ) : ℕ → ℚ → List ℚ
  | 0, _ => []
  | n + 1, t => t :: frameTimesAux step n (t + step)

/-- The scene-global times at which the GIF loop samples its frames. -/
def gifFrameTimes (fps : ℚ) (totalFrames : ℕ) : List ℚ :=
  frameTimesAux (gifFrameDuration fps) totalFrames 0

/-- `exportScenesAsVideo` (src/lib/video-export.ts lines 483-500): empty
input is rejected first ("No scenes to export"); the format defaults via
`options.format || 'webm'` (the empty string is falsy in JS); `gif` and
`mp4` dispatch to their exporters and every other format string takes the
WebM path. -/
def exportScenesAsVideo (env : ExportEnv) (scenes : List SceneExportData)
    (options : ExportOptions) : ExportOutcome :=
  if scenes.length = 0 then
    ⟨0, 0, Except.error ExportError.emptyInput⟩
  else
    let format := match options.format with
      | none => "webm"
      | some f => if f = "" then "webm" else f
    if format = "gif" then exportAsGIF env scenes options
    else if format = "mp4" then exportAsMP4 env scenes options
    else exportAsWebM env scenes options

/-- The URL of the first scene whose image fails to decode, if any. -/
def firstFailingUrl (decode : String → Bool)
    (scenes : List SceneExportData) : Option String :=
  (scenes.find? (fun s => !(decode s.imageUrl))).map SceneExportData.imageUrl

theorem loadImagesAux_snd (decode : String → Bool)
    (scenes : List SceneExportData) :
    (loadImagesAux decode scenes).2 = firstFailingUrl decode scenes := by
  induction scenes with
  | nil => rfl
  | cons s rest ih =>
    by_cases h : decode s.imageUrl
    · simp [loadImagesAux, h, firstFailingUrl, List.find?_cons] at ih ⊢
      exact ih
    · simp [loadImagesAux, h, firstFailingUrl, List.find?_cons]

/-- C9: exporting an empty scene list is rejected with the empty-input error
("No scenes to export") before any image load is attempted and before any
frame is drawn into an encoder, for every environment and option set. -/
theorem C9_empty_input (env : ExportEnv) (options : ExportOptions) :
    exportScenesAsVideo env [] options =
      ⟨0, 0, Except.error ExportError.emptyInput⟩ := rfl

/-- Environment whose image decoder always fails, used for C5. -/
def cexEnvC5 : ExportEnv :=
  { decode := fun _ => false, vp9Supported := true, transcodeOk := true }

/-- Single export scene used by the C5 and C10 concrete instances. -/
def demoExportScene : SceneExportData := { imageUrl := "img-0", duration := 1000 }

/-- Options requesting the mp4 format, used for C5. -/
def cexOptionsC5 : ExportOptions :=
  { width := 1280, height := 720, fps := 30, quality := "high", format := some "mp4" }

/-- Counterexample to C5 as stated: with an undecodable image and format
"mp4" the export does abort, but the surfaced error is the rebranded MP4
failure ("MP4 export failed. Please try WebM format instead."), never the
image-load error the claim requires for every format. -/
theorem C5_counterexample :
    (exportScenesAsVideo cexEnvC5 [demoExportScene] cexOptionsC5).result =
      Except.error ExportError.mp4Failed
    ∧ ∀ u, Except.error (ε := ExportError) (α := Blob) ExportError.mp4Failed ≠
        Except.error (ExportError.imageLoad u) := by
  constructor
  · rfl
  · intro u h
    injection h with h2
    cases h2

theorem renderToWebM_load_failure (env : ExportEnv)
    (scenes : List SceneExportData) (options : ExportOptions) (url : String)
    (hvp9 : env.vp9Supported = true)
    (hfail : firstFailingUrl env.decode scenes = some url) :
    renderToWebM env scenes options =
      ⟨(loadImagesAux env.decode scenes).1, 0,
        Except.error (ExportError.imageLoad url)⟩ := by
  have hsnd : (loadImagesAux env.decode scenes).2 = some url := by
    rw [loadImagesAux_snd]
    exact hfail
  have hpair : loadImagesAux env.decode scenes
      = ((loadImagesAux env.decode scenes).1, some url) := by
    rw [← hsnd]
  unfold renderToWebM
  rw [hvp9, hpair]
  simp

theorem exportAsGIF_load_failure (env : ExportEnv)
    (scenes : List SceneExportData) (options : ExportOptions) (url : String)
    (hfail : firstFailingUrl env.decode scenes = some url) :
    exportAsGIF env scenes options =
      ⟨(loadImagesAux env.decode scenes).1, 0,
        Except.error (ExportError.imageLoad url)⟩ := by
  have hsnd : (loadImagesAux env.decode scenes).2 = some url := by
    rw [loadImagesAux_snd]
    exact hfail
  have hpair : loadImagesAux env.decode scenes
      = ((loadImagesAux env.decode scenes).1, some url) := by
    rw [← hsnd]
  unfold exportAsGIF
  rw [hpair]


/-- The format defaulting `options.format || 'webm'` (line 491): a missing
or empty (falsy) format string resolves to "webm". -/
def resolvedFormat (format : Option String) : String :=
  match format with
  | none => "webm"
  | some f => if f = "" then "webm" else f

theorem exportScenesAsVideo_eq (env : ExportEnv)
    (scenes : List SceneExportData) (options : ExportOptions)
    (hne : ¬ scenes.length = 0) :
    exportScenesAsVideo env scenes options =
      (if resolvedFormat options.format = "gif" then exportAsGIF env scenes options
       else if resolvedFormat options.format = "mp4" then exportAsMP4 env scenes options
       else exportAsWebM env scenes options) := by
  unfold exportScenesAsVideo resolvedFormat
  rw [if_neg hne]

theorem resolvedFormat_other {f : String} (hf : f ≠ "") :
    resolvedFormat (some f) = f := by
  show (if f = "" then "webm" else f) = f
  rw [if_neg hf]

/-- C5 (amended): if any scene's source image fails to decode, every export
format aborts during the loading phase — zero frames are encoded and no blob
is returned.  The WebM and GIF paths reject with the image-load error naming
the first failing URL; the MP4 path catches that error and re-surfaces it as
the generic MP4-export-failed error rather than the image-load error. -/
theorem C5_image_load_failure (env : ExportEnv) (scenes : List SceneExportData)
    (options : ExportOptions) (url : String)
    (hfail : firstFailingUrl env.decode scenes = some url)
    (hvp9 : env.vp9Supported = true) (hne : scenes ≠ []) :
    (∀ fmt : Option String,
      (exportScenesAsVideo env scenes { options with format := fmt }).framesEncoded = 0
      ∧ ∀ b, (exportScenesAsVideo env scenes { options with format := fmt }).result ≠
          Except.ok b)
    ∧ (exportScenesAsVideo env scenes { options with format := none }).result =
        Except.error (ExportError.imageLoad url)
    ∧ (exportScenesAsVideo env scenes { options with format := some "gif" }).result =
        Except.error (ExportError.imageLoad url)
    ∧ (exportScenesAsVideo env scenes { options with format := some "mp4" }).result =
        Except.error ExportError.mp4Failed := by
  have hlen : ¬ scenes.length = 0 := by
    have := List.length_pos.mpr hne
    omega
  have hwebm : ∀ opts : ExportOptions, exportAsWebM env scenes opts =
      ⟨(loadImagesAux env.decode scenes).1, 0,
        Except.error (ExportError.imageLoad url)⟩ := fun opts =>
    renderToWebM_load_failure env scenes opts url hvp9 hfail
  have hgif : ∀ opts : ExportOptions, exportAsGIF env scenes opts =
      ⟨(loadImagesAux env.decode scenes).1, 0,
        Except.error (ExportError.imageLoad url)⟩ := fun opts =>
    exportAsGIF_load_failure env scenes opts url hfail
  have hmp4 : ∀ opts : ExportOptions, exportAsMP4 env scenes opts =
      ⟨(loadImagesAux env.decode scenes).1, 0,
        Except.error ExportError.mp4Failed⟩ := by
    intro opts
    unfold exportAsMP4
    rw [renderToWebM_load_failure env scenes opts url hvp9 hfail]
  have hall : ∀ opts : ExportOptions,
      exportScenesAsVideo env scenes opts =
        ⟨(loadImagesAux env.decode scenes).1, 0,
          Except.error (ExportError.imageLoad url)⟩
      ∨ exportScenesAsVideo env scenes opts =
        ⟨(loadImagesAux env.decode scenes).1, 0,
          Except.error ExportError.mp4Failed⟩ := by
    intro opts
    rw [exportScenesAsVideo_eq env scenes opts hlen]
    by_cases hg : resolvedFormat opts.format = "gif"
    · rw [if_pos hg, hgif]
      exact Or.inl rfl
    · rw [if_neg hg]
      by_cases hm : resolvedFormat opts.format = "mp4"
      · rw [if_pos hm, hmp4]
        exact Or.inr rfl
      · rw [if_neg hm, hwebm]
        exact Or.inl rfl
  refine ⟨?_, ?_, ?_, ?_⟩
  · intro fmt
    rcases hall { options with format := fmt } with h | h <;> rw [h]
    · exact ⟨rfl, fun b hb => by injection hb⟩
    · exact ⟨rfl, fun b hb => by injection hb⟩
  · rw [exportScenesAsVideo_eq env scenes _ hlen]
    have : resolvedFormat ({ options with format := none } : ExportOptions).format
        = "webm" := rfl
    rw [this, if_neg (by decide : ¬ ("webm" : String) = "gif"),
      if_neg (by decide : ¬ ("webm" : String) = "mp4"), hwebm]
  · rw [exportScenesAsVideo_eq env scenes _ hlen]
    have : resolvedFormat ({ options with format := some "gif" } : ExportOptions).format
        = "gif" := rfl
    rw [this, if_pos rfl, hgif]
  · rw [exportScenesAsVideo_eq env scenes _ hlen]
    have : resolvedFormat ({ options with format := some "mp4" } : ExportOptions).format
        = "mp4" := rfl
    rw [this, if_neg (by decide : ¬ ("mp4" : String) = "gif"), if_pos rfl, hmp4]

/-- Witness for C5 (amended): with the always-failing decoder, the WebM path
on one scene surfaces the image-load error for "img-0", and the MP4 path
encodes zero frames. -/
theorem C5_image_load_failure_witness :
    (exportScenesAsVideo cexEnvC5 [demoExportScene]
        { cexOptionsC5 with format := none }).result =
      Except.error (ExportError.imageLoad "img-0")
    ∧ (exportScenesAsVideo cexEnvC5 [demoExportScene]
        { cexOptionsC5 with format := some "mp4" }).framesEncoded = 0 := by
  have h := C5_image_load_failure cexEnvC5 [demoExportScene] cexOptionsC5
    "img-0" rfl rfl (by simp)
  exact ⟨h.2.1, (h.1 (some "mp4")).1⟩

/-- C10: with a non-empty scene list, a missing `options.format` or any
format value other than "gif" and "mp4" takes the WebM export path — the
outcome is identical to the format-absent call — and on success (images
decode, VP9 supported) the returned blob has MIME type video/webm; an
unrecognized format string is never rejected. -/
theorem C10_format_fallback (env : ExportEnv) (scenes : List SceneExportData)
    (options : ExportOptions) (fmt : Option String)
    (hg : fmt ≠ some "gif") (hm : fmt ≠ some "mp4") (hne : scenes ≠ []) :
    exportScenesAsVideo env scenes { options with format := fmt } =
      exportScenesAsVideo env scenes { options with format := none }
    ∧ (env.vp9Supported = true →
        firstFailingUrl env.decode scenes = none →
        (exportScenesAsVideo env scenes { options with format := fmt }).result =
          Except.ok ⟨"video/webm"⟩) := by
  have hlen : ¬ scenes.length = 0 := by
    have := List.length_pos.mpr hne
    omega
  have hdisp : ∀ fm : Option String, fm ≠ some "gif" → fm ≠ some "mp4" →
      exportScenesAsVideo env scenes { options with format := fm } =
        exportAsWebM env scenes { options with format := fm } := by
    intro fm hg2 hm2
    rw [exportScenesAsVideo_eq env scenes _ hlen]
    have hfm : ({ options with format := fm } : ExportOptions).format = fm := rfl
    cases fm with
    | none =>
      rw [hfm]
      rw [if_neg (by decide : ¬ resolvedFormat none = "gif"),
        if_neg (by decide : ¬ resolvedFormat none = "mp4")]
    | some f =>
      rw [hfm]
      by_cases hf : f = ""
      · subst hf
        rw [if_neg (by decide : ¬ resolvedFormat (some "") = "gif"),
          if_neg (by decide : ¬ resolvedFormat (some "") = "mp4")]
      · rw [resolvedFormat_other hf]
        have hfg : ¬ f = "gif" := fun h => hg2 (by rw [h])
        have hfm4 : ¬ f = "mp4" := fun h => hm2 (by rw [h])
        rw [if_neg hfg, if_neg hfm4]
  constructor
  · rw [hdisp fmt hg hm, hdisp none (by simp) (by simp)]
    rfl
  · intro hvp9 hok
    rw [hdisp fmt hg hm]
    have hsnd : (loadImagesAux env.decode scenes).2 = none := by
      rw [loadImagesAux_snd]
      exact hok
    have hpair : loadImagesAux env.decode scenes
        = ((loadImagesAux env.decode scenes).1, none) := by
      rw [← hsnd]
    unfold exportAsWebM renderToWebM
    rw [hvp9, hpair]
    simp

/-- Environment whose decoder always succeeds, for the C10 witness. -/
def demoEnvC10 : ExportEnv :=
  { decode := fun _ => true, vp9Supported := true, transcodeOk := true }

/-- Witness for C10: requesting the unrecognized format "avi" succeeds on
the WebM path with a video/webm blob. -/
theorem C10_format_fallback_witness :
    (exportScenesAsVideo demoEnvC10 [demoExportScene]
        { width := 1280, height := 720, fps := 30, quality := "high",
          format := some "avi" }).result = Except.ok ⟨"video/webm"⟩ := by
  have h := (C10_format_fallback demoEnvC10 [demoExportScene]
      { width := 1280, height := 720, fps := 30, quality := "high",
        format := some "avi" }
      (some "avi") (by simp) (by simp) (by simp)).2 rfl rfl
  exact h

theorem frameTimesAux_closed (step : ℚ) :
    ∀ (n : ℕ) (t : ℚ), frameTimesAux step n t =
      (List.range n).map (fun f : ℕ => t + (f : ℚ) * step) := by
  intro n
  induction n with
  | zero => intro t; rfl
  | succ m ih =>
    intro t
    show t :: frameTimesAux step m (t + step) = _
    rw [ih (t + step), List.range_succ_eq_map, List.map_cons, List.map_map]
    congr 1
    · push_cast
      ring
    · apply List.map_congr_left
      intro a _
      simp only [Function.comp_apply]
      push_cast
      ring

/-- C7: the GIF export clamps the output width to min(width, 800), recomputes
the height proportionally as round(gifWidth × height / width), clamps the
frame rate to min(fps, 15), and its loop samples frames at fixed steps of
1000 / min(fps, 15) ms starting from time 0. -/
theorem C7_gif_parameters (width height fps : ℚ) (totalFrames : ℕ) :
    gifWidth width = min width 800
    ∧ gifHeight width height = round (min width 800 * height / width)
    ∧ gifFps fps = min fps 15
    ∧ gifFrameTimes fps totalFrames =
        (List.range totalFrames).map (fun f : ℕ => (f : ℚ) * (1000 / min fps 15)) := by
  refine ⟨rfl, ?_, rfl, ?_⟩
  · unfold gifHeight gifWidth
    rw [mul_div_assoc]
  · rw [gifFrameTimes, frameTimesAux_closed]
    apply List.map_congr_left
    intro a _
    rw [zero_add]
    rfl

/-- Progress values reported by the image-loading loop:
`((i + 1) / scenes.length) * 10` for i = 0..n-1
(src/lib/video-export.ts line 201, also line 416). -/
def loadProgress (n : ℕ) : List ℚ :=
  (List.range n).map (fun i : ℕ => ((i : ℚ) + 1) / (n : ℚ) * 10)

/-- Progress values of the WebM frame loop:
`10 + ((frameIndex + 1) / totalFrames) * 70` (line 250). -/
def webmFrameProgress (t : ℕ) : List ℚ :=
  (List.range t).map (fun f : ℕ => 10 + ((f : ℚ) + 1) / (t : ℚ) * 70)

/-- Progress values of the GIF frame loop:
`10 + ((frameIndex + 1) / totalFrames) * 60` (line 463). -/
def gifFrameProgress (t : ℕ) : List ℚ :=
  (List.range t).map (fun f : ℕ => 10 + ((f : ℚ) + 1) / (t : ℚ) * 60)

/-- Sequence of onProgress values emitted by `renderToWebM` (lines 195-251):
an initial 0, the loading phase rising to 10, then the frame loop rising
to 80. -/
def renderToWebMProgress (n t : ℕ) : List ℚ :=
  0 :: loadProgress n ++ webmFrameProgress t

/-- `exportAsWebM` (lines 352-359) appends the final 100. -/
def webmExportProgress (n t : ℕ) : List ℚ :=
  renderToWebMProgress n t ++ [100]

/-- Values emitted by `getFFmpeg` (lines 276-307): 80 and 85 around the lazy
first-time engine load, nothing when the singleton is already cached. -/
def ffmpegLoadProgress (cached : Bool) : List ℚ :=
  if cached then [] else [80, 85]

/-- Values emitted by `convertToMP4` (lines 312-347): the engine-load phase,
then `85 + progress * 14` per transcode progress event, then the final 100. -/
def convertToMP4Progress (cached : Bool) (events : List ℚ) : List ℚ :=
  ffmpegLoadProgress cached ++ events.map (fun p => 85 + p * 14) ++ [100]

/-- Sequence of onProgress values of a successful MP4 export (lines 364-382):
the WebM render phase followed by the transcode phase. -/
def mp4ExportProgress (n t : ℕ) (cached : Bool) (events : List ℚ) : List ℚ :=
  renderToWebMProgress n t ++ convertToMP4Progress cached events

/-- Sequence of onProgress values of a successful GIF export (lines 387-478):
0, loading rising to 10, frames rising to 70, then `70 + p * 30` per encoder
progress event, then 100 on finish. -/
def gifExportProgress (n t : ℕ) (events : List ℚ) : List ℚ :=
  (0 :: loadProgress n ++ gifFrameProgress t)
    ++ events.map (fun p => 70 + p * 30) ++ [100]

/-- A well-formed progress trace: monotonically non-decreasing, all values
in [0, 100], final value exactly 100. -/
def progressOk (l : List ℚ) : Prop :=
  l.Sorted (· ≤ ·) ∧ (∀ x ∈ l, 0 ≤ x ∧ x ≤ 100) ∧ l.getLast? = some 100

theorem sorted_map_range {g : ℕ → ℚ} (hg : ∀ i j, i ≤ j → g i ≤ g j) (k : ℕ) :
    ((List.range k).map g).Sorted (· ≤ ·) := by
  rw [List.Sorted, List.pairwise_map]
  exact (List.sorted_lt_range k).imp (fun h => hg _ _ (le_of_lt h))

theorem sorted_append_of_bound {l1 l2 : List ℚ} {b : ℚ}
    (h1 : l1.Sorted (· ≤ ·)) (h2 : l2.Sorted (· ≤ ·))
    (hb1 : ∀ x ∈ l1, x ≤ b) (hb2 : ∀ y ∈ l2, b ≤ y) :
    (l1 ++ l2).Sorted (· ≤ ·) := by
  rw [List.Sorted, List.pairwise_append]
  exact ⟨h1, h2, fun a ha c hc => le_trans (hb1 a ha) (hb2 c hc)⟩

theorem phaseProgress_sorted {k : ℕ} (hk : 1 ≤ k) (base scale : ℚ)
    (hscale : 0 ≤ scale) :
    ((List.range k).map
      (fun i : ℕ => base + ((i : ℚ) + 1) / (k : ℚ) * scale)).Sorted (· ≤ ·) := by
  have hkp : (0 : ℚ) < k := by exact_mod_cast hk
  apply sorted_map_range
  intro i j hij
  have hij2 : (i : ℚ) ≤ j := by exact_mod_cast hij
  have h1 : ((i : ℚ) + 1) / k ≤ ((j : ℚ) + 1) / k := by
    gcongr
  nlinarith

theorem phaseProgress_bounds {k : ℕ} (hk : 1 ≤ k) (base scale : ℚ)
    (hscale : 0 ≤ scale) :
    ∀ x ∈ (List.range k).map
        (fun i : ℕ => base + ((i : ℚ) + 1) / (k : ℚ) * scale),
      base ≤ x ∧ x ≤ base + scale := by
  have hkp : (0 : ℚ) < k := by exact_mod_cast hk
  intro x hx
  rw [List.mem_map] at hx
  obtain ⟨i, hi, rfl⟩ := hx
  rw [List.mem_range] at hi
  have hfrac0 : 0 ≤ ((i : ℚ) + 1) / k := by positivity
  have hfrac1 : ((i : ℚ) + 1) / k ≤ 1 := by
    rw [div_le_one hkp]
    exact_mod_cast Nat.succ_le_of_lt hi
  constructor
  · nlinarith
  · nlinarith

theorem loadProgress_eq (n : ℕ) :
    loadProgress n = (List.range n).map
      (fun i : ℕ => 0 + ((i : ℚ) + 1) / (n : ℚ) * 10) := by
  unfold loadProgress
  apply List.map_congr_left
  intro a _
  rw [zero_add]

theorem loadProgress_sorted {n : ℕ} (hn : 1 ≤ n) :
    (loadProgress n).Sorted (· ≤ ·) := by
  rw [loadProgress_eq]
  exact phaseProgress_sorted hn 0 10 (by norm_num)

theorem loadProgress_bounds {n : ℕ} (hn : 1 ≤ n) :
    ∀ x ∈ loadProgress n, 0 ≤ x ∧ x ≤ 10 := by
  rw [loadProgress_eq]
  intro x hx
  have h := phaseProgress_bounds hn 0 10 (by norm_num) x hx
  constructor
  · linarith [h.1]
  · linarith [h.2]

theorem mappedEvents_sorted {events : List ℚ} (hs : events.Sorted (· ≤ ·))
    (base scale : ℚ) (hscale : 0 ≤ scale) :
    (events.map (fun p => base + p * scale)).Sorted (· ≤ ·) := by
  rw [List.Sorted, List.pairwise_map]
  apply hs.imp
  intro a b hab
  nlinarith

theorem mappedEvents_bounds {events : List ℚ}
    (hb : ∀ p ∈ events, 0 ≤ p ∧ p ≤ 1) (base scale : ℚ) (hscale : 0 ≤ scale) :
    ∀ x ∈ events.map (fun p => base + p * scale), base ≤ x ∧ x ≤ base + scale := by
  intro x hx
  rw [List.mem_map] at hx
  obtain ⟨p, hp, rfl⟩ := hx
  obtain ⟨h0, h1⟩ := hb p hp
  constructor
  · nlinarith
  · nlinarith

theorem renderPrefix_sorted_bounds {n t : ℕ} (hn : 1 ≤ n) (ht : 1 ≤ t)
    (scale : ℚ) (hscale : 0 ≤ scale) :
    (((0 : ℚ) :: (loadProgress n ++ (List.range t).map
        (fun f : ℕ => 10 + ((f : ℚ) + 1) / (t : ℚ) * scale))).Sorted (· ≤ ·))
    ∧ ∀ x ∈ (0 : ℚ) :: (loadProgress n ++ (List.range t).map
        (fun f : ℕ => 10 + ((f : ℚ) + 1) / (t : ℚ) * scale)),
      0 ≤ x ∧ x ≤ 10 + scale := by
  have hbl := loadProgress_bounds hn
  have hbf := phaseProgress_bounds ht 10 scale hscale
  have hmid : (loadProgress n ++ (List.range t).map
      (fun f : ℕ => 10 + ((f : ℚ) + 1) / (t : ℚ) * scale)).Sorted (· ≤ ·) :=
    sorted_append_of_bound (loadProgress_sorted hn)
      (phaseProgress_sorted ht 10 scale hscale)
      (fun x hx => (hbl x hx).2) (fun y hy => (hbf y hy).1)
  constructor
  · rw [List.sorted_cons]
    refine ⟨?_, hmid⟩
    intro b hb
    rcases List.mem_append.mp hb with h | h
    · exact (hbl b h).1
    · linarith [(hbf b h).1]
  · intro x hx
    rcases List.mem_cons.mp hx with rfl | hx2
    · constructor
      · exact le_refl 0
      · linarith
    · rcases List.mem_append.mp hx2 with h | h
      · exact ⟨(hbl x h).1, by linarith [(hbl x h).2]⟩
      · exact ⟨by linarith [(hbf x h).1], (hbf x h).2⟩

theorem progressOk_append_final {l : List ℚ}
    (hs : l.Sorted (· ≤ ·)) (hb : ∀ x ∈ l, 0 ≤ x ∧ x ≤ 100) :
    progressOk (l ++ [100]) := by
  refine ⟨?_, ?_, by simp⟩
  · refine sorted_append_of_bound hs (List.sorted_singleton 100)
      (fun x hx => (hb x hx).2) ?_
    intro y hy
    rw [List.mem_singleton] at hy
    subst hy
    exact le_refl 100
  · intro x hx
    rcases List.mem_append.mp hx with h | h
    · exact hb x h
    · rw [List.mem_singleton] at h
      subst h
      norm_num

theorem ffmpegLoadProgress_sorted (cached : Bool) :
    (ffmpegLoadProgress cached).Sorted (· ≤ ·) := by
  cases cached
  · norm_num [ffmpegLoadProgress, List.sorted_cons]
  · simp [ffmpegLoadProgress]

theorem ffmpegLoadProgress_bounds (cached : Bool) :
    ∀ x ∈ ffmpegLoadProgress cached, 80 ≤ x ∧ x ≤ 85 := by
  cases cached
  · intro x hx
    simp [ffmpegLoadProgress] at hx
    rcases hx with rfl | rfl
    · norm_num
    · norm_num
  · intro x hx
    simp [ffmpegLoadProgress] at hx

/-- C6: for every successful export in each format, the sequence of values
passed to onProgress is monotonically non-decreasing, every reported value
lies in [0, 100], and the final reported value is exactly 100.  The external
encoder progress events (FFmpeg transcode, gif.js render) are assumed
monotone with values in [0, 1], and a successful export has at least one
scene and one sampled frame. -/
theorem C6_progress_reporting (n t : ℕ) (cached : Bool)
    (mp4Events gifEvents : List ℚ) (hn : 1 ≤ n) (ht : 1 ≤ t)
    (hms : mp4Events.Sorted (· ≤ ·)) (hmb : ∀ p ∈ mp4Events, 0 ≤ p ∧ p ≤ 1)
    (hgs : gifEvents.Sorted (· ≤ ·)) (hgb : ∀ p ∈ gifEvents, 0 ≤ p ∧ p ≤ 1) :
    progressOk (webmExportProgress n t)
    ∧ progressOk (mp4ExportProgress n t cached mp4Events)
    ∧ progressOk (gifExportProgress n t gifEvents) := by
  obtain ⟨hws, hwb⟩ := renderPrefix_sorted_bounds hn ht 70 (by norm_num)
  obtain ⟨hgs2, hgb2⟩ := renderPrefix_sorted_bounds hn ht 60 (by norm_num)
  have hrender_s : (renderToWebMProgress n t).Sorted (· ≤ ·) := hws
  have hrender_b : ∀ x ∈ renderToWebMProgress n t, 0 ≤ x ∧ x ≤ 80 := by
    intro x hx
    have h := hwb x hx
    exact ⟨h.1, by linarith [h.2]⟩
  refine ⟨?_, ?_, ?_⟩
  · exact progressOk_append_final hrender_s
      (fun x hx => ⟨(hrender_b x hx).1, by linarith [(hrender_b x hx).2]⟩)
  · have heq : mp4ExportProgress n t cached mp4Events =
        (renderToWebMProgress n t ++ (ffmpegLoadProgress cached ++
          mp4Events.map (fun p => 85 + p * 14))) ++ [100] := by
      unfold mp4ExportProgress convertToMP4Progress
      rw [← List.append_assoc]
    rw [heq]
    have hmid_b : ∀ x ∈ ffmpegLoadProgress cached ++
        mp4Events.map (fun p => 85 + p * 14), 80 ≤ x ∧ x ≤ 99 := by
      intro x hx
      rcases List.mem_append.mp hx with h | h
      · have h2 := ffmpegLoadProgress_bounds cached x h
        exact ⟨h2.1, by linarith [h2.2]⟩
      · have h2 := mappedEvents_bounds hmb 85 14 (by norm_num) x h
        exact ⟨by linarith [h2.1], by linarith [h2.2]⟩
    have hmid_s : (ffmpegLoadProgress cached ++
        mp4Events.map (fun p => 85 + p * 14)).Sorted (· ≤ ·) :=
      sorted_append_of_bound (ffmpegLoadProgress_sorted cached)
        (mappedEvents_sorted hms 85 14 (by norm_num))
        (fun x hx => (ffmpegLoadProgress_bounds cached x hx).2)
        (fun y hy => (mappedEvents_bounds hmb 85 14 (by norm_num) y hy).1)
    apply progressOk_append_final
    · exact sorted_append_of_bound hrender_s hmid_s
        (fun x hx => (hrender_b x hx).2) (fun y hy => (hmid_b y hy).1)
    · intro x hx
      rcases List.mem_append.mp hx with h | h
      · exact ⟨(hrender_b x h).1, by linarith [(hrender_b x h).2]⟩
      · exact ⟨by linarith [(hmid_b x h).1], by linarith [(hmid_b x h).2]⟩
  · have hpre_s : (((0 : ℚ) :: loadProgress n) ++ gifFrameProgress t).Sorted (· ≤ ·) :=
      hgs2
    have hpre_b : ∀ x ∈ ((0 : ℚ) :: loadProgress n) ++ gifFrameProgress t,
        0 ≤ x ∧ x ≤ 70 := by
      intro x hx
      have h := hgb2 x hx
      exact ⟨h.1, by linarith [h.2]⟩
    unfold gifExportProgress
    apply progressOk_append_final
    · exact sorted_append_of_bound hpre_s
        (mappedEvents_sorted hgs 70 30 (by norm_num))
        (fun x hx => (hpre_b x hx).2)
        (fun y hy => (mappedEvents_bounds hgb 70 30 (by norm_num) y hy).1)
    · intro x hx
      rcases List.mem_append.mp hx with h | h
      · exact ⟨(hpre_b x h).1, by linarith [(hpre_b x h).2]⟩
      · have h2 := mappedEvents_bounds hgb 70 30 (by norm_num) x h
        exact ⟨by linarith [h2.1], by linarith [h2.2]⟩

/-- Witness for C6: the single-scene, single-frame traces with a cold FFmpeg
engine and no external encoder events are monotone, within [0, 100], and end
at exactly 100. -/
theorem C6_progress_reporting_witness :
    progressOk (webmExportProgress 1 1)
    ∧ progressOk (mp4ExportProgress 1 1 false [])
    ∧ progressOk (gifExportProgress 1 1 []) :=
  C6_progress_reporting 1 1 false [] [] (le_refl 1) (le_refl 1)
    List.sorted_nil (by simp) List.sorted_nil (by simp)
